import Mathlib

/-!
Verification of the conversation-memory subsystem of dvkcli.

The embedding follows internal/memory (store.go): the SQLite-backed store of
conversations and messages, the float32 blob codec, cosine similarity, and the
similarity-ranked search, plus the searchMemory command handler from the UI
layer.

Modelling conventions:
* A float32 value crossing the storage boundary is modelled by its IEEE-754
  bit pattern, a natural number below 2^32; the codec (serializeFloat32 /
  deserializeFloat32) moves bit patterns to and from little-endian bytes,
  exactly as math.Float32bits / binary.LittleEndian do, so bit-for-bit
  round-tripping (NaN payloads included) is literal equality of patterns.
* Float arithmetic inside cosineSimilarity is idealised: float32 components
  are exact rationals and the float64 accumulator is exact real arithmetic
  (math.Sqrt becomes Real.sqrt).  The branch structure of the Go function is
  kept exactly.
* SQL semantics are modelled from the schema in Store.init: TEXT PRIMARY KEY
  columns reject duplicate identities, the declared FOREIGN KEY rejects
  messages whose conversation id has no row, a NULL embedding column is
  Option.none, ORDER BY is a stable sort on the relevant column and
  row-scan order is list order.
* time.Now() is passed in explicitly as a natural-number timestamp.
-/

namespace Dvk

/-- serializeFloat32 (store.go): each float32, given by its 32-bit pattern,
becomes four little-endian bytes; elements are emitted in order. -/
def serializeFloat32 : List Nat → List Nat
  | [] => []
  | bits :: rest =>
    bits % 256 :: bits / 256 % 256 :: bits / 65536 % 256 :: bits / 16777216 % 256 ::
      serializeFloat32 rest

/-- deserializeFloat32 (store.go): reads the byte list four bytes at a time,
little-endian; a trailing partial group (fewer than four bytes) is dropped,
matching the Go length computation len(data)/4. -/
def deserializeFloat32 : List Nat → List Nat
  | b0 :: b1 :: b2 :: b3 :: rest =>
    (b0 + 256 * b1 + 65536 * b2 + 16777216 * b3) :: deserializeFloat32 rest
  | _ => []

/-- Dot-product accumulation of the cosineSimilarity loop, in exact
arithmetic. -/
def dotProduct : List ℚ → List ℚ → ℚ
  | a :: as, b :: bs => a * b + dotProduct as bs
  | _, _ => 0

/-- Sum of squares of one vector (the normA / normB accumulators of
cosineSimilarity). -/
def sumSquares : List ℚ → ℚ
  | [] => 0
  | x :: xs => x * x + sumSquares xs

/-- cosineSimilarity (store.go): 0 when lengths differ, 0 when either norm
accumulator is zero, otherwise dot product over the product of square roots.
Float64 arithmetic is idealised as exact real arithmetic. -/
noncomputable def cosineSimilarity (a b : List ℚ) : ℝ :=
  if a.length ≠ b.length then 0
  else if sumSquares a = 0 ∨ sumSquares b = 0 then 0
  else (dotProduct a b : ℝ) / (Real.sqrt (sumSquares a : ℝ) * Real.sqrt (sumSquares b : ℝ))

/-- Message (store.go): embedding is the in-memory []float32 slice; none is
the nil slice, some [] a non-nil empty slice, and for a row read back from
the messages table the field holds the embedding column (none = NULL). -/
structure Message where
  id : String
  conversationID : String
  role : String
  content : String
  embedding : Option (List ℚ)
  createdAt : Nat
deriving DecidableEq

/-- Conversation (store.go); rows of the conversations table carry messages
as the empty list, exactly as the Go struct leaves Messages nil. -/
structure Conversation where
  id : String
  title : String
  createdAt : Nat
  updatedAt : Nat
  messages : List Message
deriving DecidableEq

/-- The database state: the two tables of Store.init, rows in insertion
(rowid) order. -/
structure Store where
  conversations : List Conversation
  messages : List Message
deriving DecidableEq

/-- Failure taxonomy of the persistence layer: the two constraint violations
the schema of Store.init can raise on insert. -/
inductive StoreError where
  | duplicateIdentity
  | foreignKeyViolation
deriving DecidableEq

/-- Length of the in-memory embedding slice; Go len applied to a possibly
nil []float32. -/
def embLen : Option (List ℚ) → Nat
  | none => 0
  | some l => l.length

/-- Embedding column value computed by SaveMessage: the blob is set only
when len(msg.Embedding) > 0, otherwise the column stays NULL. -/
def storedBlob (e : Option (List ℚ)) : Option (List ℚ) :=
  if 0 < embLen e then e else none

/-- The messages-table row inserted by SaveMessage: the message with its
embedding column normalised through storedBlob. -/
def storedMessage (msg : Message) : Message :=
  { msg with embedding := storedBlob msg.embedding }

/-- Whether a conversation row with the given id exists. -/
def conversationExists (s : Store) (cid : String) : Bool :=
  s.conversations.any (fun c => c.id = cid)

/-- Whether a message row with the given id exists. -/
def messageIdExists (s : Store) (mid : String) : Bool :=
  s.messages.any (fun m => m.id = mid)

/-- CreateConversation (store.go): INSERT INTO conversations; the TEXT
PRIMARY KEY rejects an existing id; both timestamps are set to now. -/
def CreateConversation (s : Store) (id title : String) (now : Nat) :
    Except StoreError (Store × Conversation) :=
  if conversationExists s id then .error .duplicateIdentity
  else
    .ok ({ s with conversations := s.conversations ++ [⟨id, title, now, now, []⟩] },
         ⟨id, title, now, now, []⟩)

/-- SaveMessage (store.go): INSERT INTO messages followed by an UPDATE of the
parent conversation timestamp.  The declared FOREIGN KEY rejects a missing
conversation and the PRIMARY KEY rejects a duplicate message id (the model
reports the referential failure first; the Go code surfaces either as one
wrapped error).  On success, exactly one row is appended and only the parent
row's updated_at changes. -/
def SaveMessage (s : Store) (msg : Message) (now : Nat) : Except StoreError Store :=
  if conversationExists s msg.conversationID then
    if messageIdExists s msg.id then .error .duplicateIdentity
    else
      .ok { conversations := s.conversations.map (fun c =>
              if c.id = msg.conversationID then { c with updatedAt := now } else c),
            messages := s.messages ++ [storedMessage msg] }
  else .error .foreignKeyViolation

/-- Database state after a statement outcome: an error leaves the store as it
was (the failed INSERT writes nothing). -/
def persistedStore : Except StoreError Store → Store → Store
  | .ok t, _ => t
  | .error _, s => s

/-- Stable insertion step for ORDER BY updated_at DESC. -/
def insertByUpdatedDesc (c : Conversation) : List Conversation → List Conversation
  | [] => [c]
  | d :: ds =>
    if d.updatedAt ≤ c.updatedAt then c :: d :: ds else d :: insertByUpdatedDesc c ds

/-- ORDER BY updated_at DESC as a stable sort of the conversations table. -/
def orderByUpdatedDesc (l : List Conversation) : List Conversation :=
  l.foldr insertByUpdatedDesc []

/-- Stable insertion step for ORDER BY created_at (ascending). -/
def insertByCreated (m : Message) : List Message → List Message
  | [] => [m]
  | d :: ds =>
    if m.createdAt ≤ d.createdAt then m :: d :: ds else d :: insertByCreated m ds

/-- ORDER BY created_at as a stable sort of a message list. -/
def orderByCreated (l : List Message) : List Message :=
  l.foldr insertByCreated []

/-- GetConversation (store.go): the conversation row for the id, absent when
unknown, together with its messages ordered by created_at.  The message
SELECT does not read the embedding column, so every returned message carries
a nil embedding. -/
def GetConversation (s : Store) (id : String) : Option Conversation :=
  match s.conversations.find? (fun c => c.id = id) with
  | none => none
  | some c =>
    let msgs := (orderByCreated (s.messages.filter (fun m => m.conversationID = id))).map
      (fun m => { m with embedding := none })
    some { c with messages := msgs }

/-- ListConversations (store.go): conversation rows ordered by updated_at
descending, truncated to the limit; messages are not loaded. -/
def ListConversations (s : Store) (limit : Nat) : List Conversation :=
  (orderByUpdatedDesc s.conversations).take limit

/-- GetLastConversation (store.go): SELECT id ORDER BY updated_at DESC
LIMIT 1, then a full GetConversation fetch; absent when the table is
empty. -/
def GetLastConversation (s : Store) : Option Conversation :=
  match (orderByUpdatedDesc s.conversations).head? with
  | none => none
  | some c => GetConversation s c.id

/-- Modelled from the spec (section 4.2): the composition the spec declares
GetLastConversation equivalent to, namely listConversations(1) followed by a
full fetch of the returned conversation. -/
def lastViaList (s : Store) : Option Conversation :=
  match ListConversations s 1 with
  | [] => none
  | c :: _ => GetConversation s c.id

/-- SearchResult (store.go): a scanned message paired with its float64
similarity, idealised as a real number. -/
structure SearchResult where
  message : Message
  similarity : ℝ

/-- One iteration body of the Search scan loop: a row whose blob is present
and non-empty is scored against the query, any other row yields nothing. -/
noncomputable def scoreRow (q : List ℚ) (m : Message) : Option SearchResult :=
  match m.embedding with
  | some e => if 0 < e.length then some ⟨m, cosineSimilarity q e⟩ else none
  | none => none

/-- The scan phase of Search (store.go): SELECT ... WHERE embedding IS NOT
NULL in row order, then the in-loop length guard and similarity
computation. -/
noncomputable def scanResults (s : Store) (q : List ℚ) : List SearchResult :=
  (s.messages.filter (fun m => m.embedding.isSome)).filterMap (scoreRow q)

/-- The inner loop of the Search sort for one fixed outer index: the pivot is
swapped with any strictly greater later element; returns the final pivot and
the remaining elements in their final relative positions. -/
noncomputable def bubblePass (x : SearchResult) : List SearchResult → SearchResult × List SearchResult
  | [] => (x, [])
  | y :: ys =>
    if x.similarity < y.similarity then
      ((bubblePass y ys).1, x :: (bubblePass y ys).2)
    else
      ((bubblePass x ys).1, y :: (bubblePass x ys).2)

/-- The outer loop of the Search sort, with the iteration count as fuel; the
Go loop runs once per position. -/
noncomputable def sortPasses : Nat → List SearchResult → List SearchResult
  | 0, l => l
  | _ + 1, [] => []
  | n + 1, x :: xs => (bubblePass x xs).1 :: sortPasses n (bubblePass x xs).2

/-- The exchange sort of Search (store.go lines 487-493), descending by
similarity. -/
noncomputable def sortResults (l : List SearchResult) : List SearchResult :=
  sortPasses l.length l

/-- Search (store.go): scan all rows with a stored embedding, score each,
sort by descending similarity, truncate to the limit. -/
noncomputable def Search (s : Store) (q : List ℚ) (limit : Nat) : List SearchResult :=
  (sortResults (scanResults s q)).take limit

/-- Outcome of the /search command handler, as seen by the display loop. -/
inductive RecallOutcome where
  | embeddingUnavailable
  | noMatches
  | found (results : List SearchResult)

/-- searchMemory (ui layer): the query is embedded first; a provider failure
(none) reports the embedding error without touching the store, otherwise
Search runs with limit 5 and an empty result list is reported as no
matches.  The store component of the result is the database state the
handler leaves behind. -/
noncomputable def searchMemory (s : Store) (queryEmbedding : Option (List ℚ)) :
    RecallOutcome × Store :=
  match queryEmbedding with
  | none => (.embeddingUnavailable, s)
  | some q =>
    if (Search s q 5).length = 0 then (.noMatches, s)
    else (.found (Search s q 5), s)

/-! Supporting lemmas. -/

theorem sumSquares_nonneg (l : List ℚ) : 0 ≤ sumSquares l := by
  induction l with
  | nil => simp [sumSquares]
  | cons x xs ih =>
    have hx : 0 ≤ x * x := mul_self_nonneg x
    simp only [sumSquares]
    linarith

theorem sumSquares_eq_zero (l : List ℚ) : sumSquares l = 0 ↔ ∀ x ∈ l, x = 0 := by
  induction l with
  | nil => simp [sumSquares]
  | cons x xs ih =>
    simp only [sumSquares, List.mem_cons]
    constructor
    · intro h
      have h1 : 0 ≤ x * x := mul_self_nonneg x
      have h2 : 0 ≤ sumSquares xs := sumSquares_nonneg xs
      have hxz : x = 0 := by
        have : x * x = 0 := by linarith
        exact mul_self_eq_zero.mp this
      have hrest : ∀ y ∈ xs, y = 0 := ih.mp (by linarith)
      rintro y (rfl | hy)
      · exact hxz
      · exact hrest y hy
    · intro h
      have hx : x = 0 := h x (Or.inl rfl)
      have hxs : sumSquares xs = 0 := ih.mpr (fun y hy => h y (Or.inr hy))
      rw [hx, hxs]
      ring

/-! Claim C2: the codec round-trips bit-for-bit. -/

/-- C2: for every finite sequence of float32 values, given as their 32-bit
IEEE-754 patterns (NaN and Inf patterns included), deserializeFloat32 of
serializeFloat32 reproduces the sequence element-for-element, and the empty
sequence serializes to the zero-length byte sequence. -/
theorem serialize_roundtrip_c2 :
    (∀ v : List Nat, (∀ x ∈ v, x < 4294967296) →
      deserializeFloat32 (serializeFloat32 v) = v) ∧
    serializeFloat32 [] = [] := by
  constructor
  · intro v
    induction v with
    | nil => intro _; rfl
    | cons x xs ih =>
      intro hv
      have hx : x < 4294967296 := hv x (List.mem_cons_self x xs)
      have hxs := ih (fun y hy => hv y (List.mem_cons_of_mem x hy))
      simp only [serializeFloat32, deserializeFloat32, List.cons.injEq]
      exact ⟨by omega, hxs⟩
  · rfl

/-- Witness for C2 at a concrete vector holding a quiet-NaN pattern
(0x7FC00001), positive zero and the all-ones pattern. -/
theorem serialize_roundtrip_c2_witness :
    deserializeFloat32 (serializeFloat32 [2143289345, 0, 4294967295]) =
      [2143289345, 0, 4294967295] :=
  serialize_roundtrip_c2.1 [2143289345, 0, 4294967295] (by decide)

/-! Claim C4: degenerate cases of cosineSimilarity. -/

/-- C4: cosineSimilarity returns exactly 0 on unequal lengths and on any
zero-magnitude (all-zero or empty) operand, in particular on the two listed
concrete inputs, and otherwise returns the dot product over the product of
norms (float64 accumulation idealised as exact real arithmetic). -/
theorem cosineSimilarity_contract_c4 :
    (∀ a b : List ℚ, a.length ≠ b.length → cosineSimilarity a b = 0) ∧
    (∀ a b : List ℚ, ((∀ x ∈ a, x = 0) ∨ (∀ x ∈ b, x = 0)) → cosineSimilarity a b = 0) ∧
    cosineSimilarity [] [] = 0 ∧
    cosineSimilarity [0, 0] [1, 1] = 0 ∧
    (∀ a b : List ℚ, a.length = b.length → sumSquares a ≠ 0 → sumSquares b ≠ 0 →
      cosineSimilarity a b =
        (dotProduct a b : ℝ) / (Real.sqrt (sumSquares a : ℝ) * Real.sqrt (sumSquares b : ℝ))) := by
  refine ⟨?_, ?_, ?_, ?_, ?_⟩
  · intro a b h
    simp only [cosineSimilarity]
    rw [if_pos h]
  · intro a b h
    by_cases hl : a.length = b.length
    · have hz : sumSquares a = 0 ∨ sumSquares b = 0 :=
        h.imp (sumSquares_eq_zero a).mpr (sumSquares_eq_zero b).mpr
      simp only [cosineSimilarity]
      rw [if_neg (by simp [hl]), if_pos hz]
    · simp only [cosineSimilarity]
      rw [if_pos hl]
  · simp [cosineSimilarity, sumSquares]
  · norm_num [cosineSimilarity, sumSquares]
  · intro a b h1 h2 h3
    simp only [cosineSimilarity]
    rw [if_neg (by simp [h1]), if_neg (by simp [h2, h3])]

/-- Witness for C4: a length mismatch, an all-zero operand and a
non-degenerate pair, all concrete. -/
theorem cosineSimilarity_contract_c4_witness :
    cosineSimilarity [1] [1, 2] = 0 ∧
    cosineSimilarity [0, 0] [1, 1] = 0 ∧
    cosineSimilarity [1] [1] =
      (dotProduct [1] [1] : ℝ) / (Real.sqrt (sumSquares [1] : ℝ) * Real.sqrt (sumSquares [1] : ℝ)) :=
  ⟨cosineSimilarity_contract_c4.1 [1] [1, 2] (by decide),
   cosineSimilarity_contract_c4.2.1 [0, 0] [1, 1] (Or.inl (by decide)),
   cosineSimilarity_contract_c4.2.2.2.2 [1] [1] rfl (by norm_num [sumSquares])
     (by norm_num [sumSquares])⟩

/-! Claim C8: recall with a failing embedding provider. -/

/-- C8: when the embedding provider fails, searchMemory reports the
embedding failure and leaves the store unchanged, and the outcome does not
depend on the stored messages at all (no scan is consulted). -/
theorem recall_unavailable_c8 :
    (∀ s : Store, searchMemory s none = (RecallOutcome.embeddingUnavailable, s)) ∧
    (∀ s t : Store, (searchMemory s none).1 = (searchMemory t none).1) :=
  ⟨fun _ => rfl, fun _ _ => rfl⟩

/-! Claim C5: corrected — absent and zero-length embeddings are stored
identically. -/

/-- C5 counterexample: saving a message with an absent embedding (nil slice)
and saving one with a zero-length embedding produce the very same stored
state, with the embedding column NULL in both; the two stored
representations are not distinguishable. -/
theorem save_indistinct_cex_c5 :
    SaveMessage ⟨[⟨"c", "t", 0, 0, []⟩], []⟩ ⟨"m1", "c", "user", "x", none, 1⟩ 2 =
      SaveMessage ⟨[⟨"c", "t", 0, 0, []⟩], []⟩ ⟨"m1", "c", "user", "x", some [], 1⟩ 2 ∧
    SaveMessage ⟨[⟨"c", "t", 0, 0, []⟩], []⟩ ⟨"m1", "c", "user", "x", none, 1⟩ 2 =
      .ok ⟨[⟨"c", "t", 0, 2, []⟩], [⟨"m1", "c", "user", "x", none, 1⟩]⟩ :=
  ⟨rfl, rfl⟩

/-- C5 amended: the embedding column is NULL exactly when the in-memory
embedding has length zero — absent and zero-length embeddings share the null
marker — and a non-empty embedding is stored as itself, distinguishable from
the null marker. -/
theorem storedBlob_amended_c5 :
    (∀ e : Option (List ℚ), storedBlob e = none ↔ embLen e = 0) ∧
    (∀ e : List ℚ, e ≠ [] → storedBlob (some e) = some e) ∧
    storedBlob none = storedBlob (some []) := by
  refine ⟨?_, ?_, rfl⟩
  · intro e
    match e with
    | none => simp [storedBlob, embLen]
    | some [] => simp [storedBlob, embLen]
    | some (x :: xs) => simp [storedBlob, embLen]
  · intro e he
    have h : 0 < e.length := List.length_pos.mpr he
    simp [storedBlob, embLen, h]

/-- Witness for C5 amended at a concrete non-empty embedding. -/
theorem storedBlob_amended_c5_witness : storedBlob (some [1]) = some [1] :=
  storedBlob_amended_c5.2.1 [1] (by decide)

/-! Claim C3: saving against a missing conversation. -/

/-- C3: saving a message whose conversation id has no conversation row fails
with the foreign-key violation, and the database afterwards (unchanged by
the failed insert) holds no message with that identity. -/
theorem save_missing_conv_c3 (s : Store) (msg : Message) (now : Nat)
    (hconv : conversationExists s msg.conversationID = false)
    (hfresh : messageIdExists s msg.id = false) :
    SaveMessage s msg now = .error .foreignKeyViolation ∧
    messageIdExists (persistedStore (SaveMessage s msg now) s) msg.id = false := by
  have h1 : SaveMessage s msg now = .error .foreignKeyViolation := by
    simp [SaveMessage, hconv]
  refine ⟨h1, ?_⟩
  rw [h1]
  exact hfresh

/-- Witness for C3: an empty store rejects a message aimed at a conversation
that does not exist. -/
theorem save_missing_conv_c3_witness :
    SaveMessage ⟨[], []⟩ ⟨"m1", "nope", "user", "x", none, 1⟩ 5 = .error .foreignKeyViolation ∧
    messageIdExists
      (persistedStore (SaveMessage ⟨[], []⟩ ⟨"m1", "nope", "user", "x", none, 1⟩ 5) ⟨[], []⟩)
      "m1" = false :=
  save_missing_conv_c3 ⟨[], []⟩ ⟨"m1", "nope", "user", "x", none, 1⟩ 5 rfl rfl

/-! Claim C9: frame of a successful SaveMessage. -/

/-- C9: a successful SaveMessage appends exactly the one stored row for the
message, rewrites the conversations table so that only the parent row's
updated_at changes (identity, title, creation time intact), keeps every
other conversation row exactly as it was, and keeps every previously stored
message. -/
theorem save_frame_c9 (s : Store) (msg : Message) (now : Nat) (s' : Store)
    (h : SaveMessage s msg now = .ok s') :
    s'.messages = s.messages ++ [storedMessage msg] ∧
    s'.conversations = s.conversations.map (fun c =>
      if c.id = msg.conversationID then { c with updatedAt := now } else c) ∧
    (∀ c ∈ s.conversations, c.id = msg.conversationID →
      { c with updatedAt := now } ∈ s'.conversations) ∧
    (∀ c ∈ s.conversations, c.id ≠ msg.conversationID → c ∈ s'.conversations) ∧
    (∀ m ∈ s.messages, m ∈ s'.messages) := by
  unfold SaveMessage at h
  by_cases h1 : conversationExists s msg.conversationID = true
  case neg => rw [if_neg h1] at h; cases h
  rw [if_pos h1] at h
  by_cases h2 : messageIdExists s msg.id = true
  case pos => rw [if_pos h2] at h; cases h
  rw [if_neg h2] at h
  injection h with h3
  subst h3
  refine ⟨rfl, rfl, ?_, ?_, ?_⟩
  · intro c hc hcid
    have hmem := List.mem_map_of_mem
      (fun c => if c.id = msg.conversationID then { c with updatedAt := now } else c) hc
    simp only [hcid, if_true] at hmem
    rw [show ({ c with updatedAt := now } : Conversation) =
      { c with id := msg.conversationID, updatedAt := now } from by rw [← hcid]]
    exact hmem
  · intro c hc hcid
    have hmem := List.mem_map_of_mem
      (fun c => if c.id = msg.conversationID then { c with updatedAt := now } else c) hc
    simp only [hcid, if_false, if_neg hcid] at hmem
    exact hmem
  · intro m hm
    exact List.mem_append_left _ hm

/-- Witness for C9: a concrete successful save, checked on its inserted
row. -/
theorem save_frame_c9_witness :
    (⟨[⟨"c", "t", 0, 9, []⟩], [⟨"m1", "c", "user", "hi", some [1], 4⟩]⟩ : Store).messages =
      ([] : List Message) ++ [storedMessage ⟨"m1", "c", "user", "hi", some [1], 4⟩] :=
  (save_frame_c9 ⟨[⟨"c", "t", 0, 0, []⟩], []⟩ ⟨"m1", "c", "user", "hi", some [1], 4⟩ 9
    ⟨[⟨"c", "t", 0, 9, []⟩], [⟨"m1", "c", "user", "hi", some [1], 4⟩]⟩ rfl).1

/-! Claim C7: GetLastConversation refines listConversations(1) plus a full
fetch. -/

theorem orderByUpdatedDesc_cons (c : Conversation) (cs : List Conversation) :
    orderByUpdatedDesc (c :: cs) = insertByUpdatedDesc c (orderByUpdatedDesc cs) := rfl

theorem mem_insertByUpdatedDesc {d c : Conversation} {l : List Conversation} :
    d ∈ insertByUpdatedDesc c l ↔ d = c ∨ d ∈ l := by
  induction l with
  | nil => simp [insertByUpdatedDesc]
  | cons e es ih =>
    simp only [insertByUpdatedDesc]
    by_cases h : e.updatedAt ≤ c.updatedAt
    · rw [if_pos h]
      simp [List.mem_cons]
    · rw [if_neg h]
      simp only [List.mem_cons, ih]
      tauto

theorem mem_orderByUpdatedDesc {d : Conversation} {l : List Conversation} :
    d ∈ orderByUpdatedDesc l ↔ d ∈ l := by
  induction l with
  | nil => simp [orderByUpdatedDesc]
  | cons c cs ih =>
    rw [orderByUpdatedDesc_cons, mem_insertByUpdatedDesc, List.mem_cons, ih]

theorem getConversation_isSome_of_mem {s : Store} {c : Conversation}
    (hc : c ∈ s.conversations) : ∃ conv, GetConversation s c.id = some conv := by
  unfold GetConversation
  cases hf : s.conversations.find? (fun d => d.id = c.id) with
  | some d => exact ⟨_, rfl⟩
  | none =>
    have hnone := List.find?_eq_none.mp hf c hc
    simp at hnone

/-- C7: GetLastConversation is the composition of ListConversations with
limit 1 and a full fetch of the returned conversation, and it is absent
exactly when that listing is empty. -/
theorem getLast_equiv_c7 : ∀ s : Store,
    GetLastConversation s = lastViaList s ∧
    (GetLastConversation s = none ↔ ListConversations s 1 = []) := by
  intro s
  constructor
  · unfold GetLastConversation lastViaList ListConversations
    cases h : orderByUpdatedDesc s.conversations with
    | nil => rfl
    | cons c cs => rfl
  · constructor
    · intro h
      unfold GetLastConversation at h
      cases hh : orderByUpdatedDesc s.conversations with
      | nil => simp [ListConversations, hh]
      | cons c cs =>
        rw [hh] at h
        simp only [List.head?] at h
        have hc : c ∈ s.conversations :=
          mem_orderByUpdatedDesc.mp (hh ▸ List.mem_cons_self c cs)
        obtain ⟨conv, hconv⟩ := getConversation_isSome_of_mem hc
        rw [hconv] at h
        cases h
    · intro h
      unfold ListConversations at h
      cases hh : orderByUpdatedDesc s.conversations with
      | nil => unfold GetLastConversation; rw [hh]; rfl
      | cons c cs =>
        rw [hh] at h
        simp [List.take] at h

/-! Claim C10: conversation retrieval never exposes stored embeddings. -/

theorem getConversation_messages_embedding {s : Store} {id : String} {conv : Conversation}
    (h : GetConversation s id = some conv) : ∀ m ∈ conv.messages, m.embedding = none := by
  unfold GetConversation at h
  cases hf : s.conversations.find? (fun c => c.id = id) with
  | none => rw [hf] at h; cases h
  | some c =>
    rw [hf] at h
    injection h with h'
    subst h'
    intro m hm
    simp only [List.mem_map] at hm
    obtain ⟨m0, _, rfl⟩ := hm
    rfl

/-- C10: every message returned by GetConversation, and hence by
GetLastConversation, has an empty embedding field, even when the stored row
holds an embedding; stored embeddings are only surfaced by Search. -/
theorem retrieval_hides_embeddings_c10 :
    (∀ (s : Store) (id : String) (conv : Conversation), GetConversation s id = some conv →
      ∀ m ∈ conv.messages, m.embedding = none) ∧
    (∀ (s : Store) (conv : Conversation), GetLastConversation s = some conv →
      ∀ m ∈ conv.messages, m.embedding = none) := by
  refine ⟨fun s id conv h => getConversation_messages_embedding h, ?_⟩
  intro s conv h
  unfold GetLastConversation at h
  cases hh : (orderByUpdatedDesc s.conversations).head? with
  | none => rw [hh] at h; cases h
  | some c =>
    rw [hh] at h
    exact getConversation_messages_embedding h

/-- Witness for C10: a store whose one message was saved with an embedding
still comes back from GetConversation with an empty embedding field. -/
theorem retrieval_hides_embeddings_c10_witness :
    Message.embedding ⟨"m1", "c", "user", "hi", none, 1⟩ = none :=
  retrieval_hides_embeddings_c10.1
    ⟨[⟨"c", "t", 0, 0, []⟩], [⟨"m1", "c", "user", "hi", some [1], 1⟩]⟩ "c"
    ⟨"c", "t", 0, 0, [⟨"m1", "c", "user", "hi", none, 1⟩]⟩ (by rfl)
    ⟨"m1", "c", "user", "hi", none, 1⟩ (by simp)

/-! Lemmas about the exchange sort of Search. -/

theorem bubblePass_snd_length (x : SearchResult) (l : List SearchResult) :
    ((bubblePass x l).2).length = l.length := by
  induction l generalizing x with
  | nil => rfl
  | cons y ys ih =>
    simp only [bubblePass]
    by_cases h : x.similarity < y.similarity
    · rw [if_pos h]; simp [ih]
    · rw [if_neg h]; simp [ih]

theorem bubblePass_perm (x : SearchResult) (l : List SearchResult) :
    ((bubblePass x l).1 :: (bubblePass x l).2).Perm (x :: l) := by
  induction l generalizing x with
  | nil => exact List.Perm.refl _
  | cons y ys ih =>
    simp only [bubblePass]
    by_cases h : x.similarity < y.similarity
    · rw [if_pos h]
      exact (List.Perm.swap x (bubblePass y ys).1 (bubblePass y ys).2).trans ((ih y).cons x)
    · rw [if_neg h]
      exact ((List.Perm.swap y (bubblePass x ys).1 (bubblePass x ys).2).trans
        ((ih x).cons y)).trans (List.Perm.swap x y ys)

theorem bubblePass_fst_max (x : SearchResult) (l : List SearchResult) :
    x.similarity ≤ (bubblePass x l).1.similarity ∧
    ∀ y ∈ (bubblePass x l).2, y.similarity ≤ (bubblePass x l).1.similarity := by
  induction l generalizing x with
  | nil => exact ⟨le_refl _, by simp [bubblePass]⟩
  | cons y ys ih =>
    simp only [bubblePass]
    by_cases h : x.similarity < y.similarity
    · rw [if_pos h]
      obtain ⟨h1, h2⟩ := ih y
      refine ⟨le_of_lt (lt_of_lt_of_le h h1), ?_⟩
      intro z hz
      rcases List.mem_cons.mp hz with rfl | hz'
      · exact le_of_lt (lt_of_lt_of_le h h1)
      · exact h2 z hz'
    · rw [if_neg h]
      obtain ⟨h1, h2⟩ := ih x
      refine ⟨h1, ?_⟩
      intro z hz
      rcases List.mem_cons.mp hz with rfl | hz'
      · exact le_trans (le_of_not_lt h) h1
      · exact h2 z hz'

theorem sortPasses_perm (n : Nat) (l : List SearchResult) : (sortPasses n l).Perm l := by
  induction n generalizing l with
  | zero => exact List.Perm.refl _
  | succ n ih =>
    cases l with
    | nil => exact List.Perm.refl _
    | cons x xs =>
      simp only [sortPasses]
      exact ((ih _).cons _).trans (bubblePass_perm x xs)

theorem sortPasses_sorted (n : Nat) (l : List SearchResult) (h : l.length ≤ n) :
    List.Pairwise (fun r₁ r₂ => r₂.similarity ≤ r₁.similarity) (sortPasses n l) := by
  induction n generalizing l with
  | zero =>
    have hl : l = [] := List.length_eq_zero.mp (Nat.le_zero.mp h)
    subst hl
    simp [sortPasses]
  | succ n ih =>
    cases l with
    | nil => simp [sortPasses]
    | cons x xs =>
      simp only [sortPasses]
      refine List.Pairwise.cons ?_ (ih _ ?_)
      · intro z hz
        have hz' : z ∈ (bubblePass x xs).2 := ((sortPasses_perm n _).mem_iff).mp hz
        exact (bubblePass_fst_max x xs).2 z hz'
      · rw [bubblePass_snd_length]
        exact Nat.succ_le_succ_iff.mp (by simpa using h)

theorem sortResults_perm (l : List SearchResult) : (sortResults l).Perm l :=
  sortPasses_perm l.length l

theorem sortResults_sorted (l : List SearchResult) :
    List.Pairwise (fun r₁ r₂ => r₂.similarity ≤ r₁.similarity) (sortResults l) :=
  sortPasses_sorted l.length l (le_refl _)

theorem filterMap_scoreRow_length (q : List ℚ) (L : List Message)
    (h : ∀ m ∈ L, m.embedding ≠ some []) :
    ((L.filter (fun m => m.embedding.isSome)).filterMap (scoreRow q)).length =
      (L.filter (fun m => m.embedding.isSome)).length := by
  induction L with
  | nil => rfl
  | cons m ms ih =>
    have hm := h m (List.mem_cons_self m ms)
    have hms := ih (fun x hx => h x (List.mem_cons_of_mem m hx))
    cases he : m.embedding with
    | none => simp [List.filter_cons, he, hms]
    | some e =>
      cases e with
      | nil => exact absurd he hm
      | cons a as =>
        simp [List.filter_cons, he, scoreRow, List.filterMap_cons, hms]

theorem scanResults_length (s : Store) (q : List ℚ)
    (hwf : ∀ m ∈ s.messages, m.embedding ≠ some []) :
    (scanResults s q).length = (s.messages.filter (fun m => m.embedding.isSome)).length :=
  filterMap_scoreRow_length q s.messages hwf

/-! Claim C1: Search returns min(k, n) results in descending similarity
order, excluding messages without a stored embedding. -/

/-- C1: over any store whose stored blobs are well formed (a stored blob is
never a present-but-empty vector, the invariant SaveMessage maintains),
Search with any query and limit returns exactly min(limit, n) results where
n counts the messages whose embedding column is non-NULL, in descending
similarity order, and every result comes from a stored message that has an
embedding — messages without one are excluded, not scored as 0. -/
theorem search_ranked_c1 (s : Store) (q : List ℚ) (k : Nat)
    (hwf : ∀ m ∈ s.messages, m.embedding ≠ some []) :
    (Search s q k).length =
      min k ((s.messages.filter (fun m => m.embedding.isSome)).length) ∧
    List.Pairwise (fun r₁ r₂ => r₂.similarity ≤ r₁.similarity) (Search s q k) ∧
    (∀ r ∈ Search s q k, r.message ∈ s.messages ∧ r.message.embedding.isSome = true) := by
  refine ⟨?_, ?_, ?_⟩
  · unfold Search
    rw [List.length_take, (sortResults_perm _).length_eq, scanResults_length s q hwf]
  · exact List.Pairwise.sublist (List.take_sublist _ _) (sortResults_sorted _)
  · intro r hr
    have h1 : r ∈ sortResults (scanResults s q) := List.mem_of_mem_take hr
    have h2 : r ∈ scanResults s q := (sortResults_perm _).mem_iff.mp h1
    unfold scanResults at h2
    obtain ⟨m, hm, hsc⟩ := List.mem_filterMap.mp h2
    have hm' := List.mem_filter.mp hm
    have hrm : r.message = m := by
      unfold scoreRow at hsc
      cases he : m.embedding with
      | none => rw [he] at hsc; cases hsc
      | some e =>
        rw [he] at hsc
        dsimp only at hsc
        by_cases hl : 0 < e.length
        · rw [if_pos hl] at hsc
          injection hsc with h'
          rw [← h']
        · rw [if_neg hl] at hsc; cases hsc
    rw [hrm]
    exact ⟨hm'.1, hm'.2⟩

/-- Witness for C1: a concrete store with one embedded and one unembedded
message, searched with limit 1. -/
theorem search_ranked_c1_witness :
    (Search ⟨[⟨"c", "t", 0, 0, []⟩],
        [⟨"m1", "c", "user", "a", some [1], 1⟩, ⟨"m2", "c", "assistant", "b", none, 2⟩]⟩
      [1] 1).length =
      min 1 (((⟨[⟨"c", "t", 0, 0, []⟩],
        [⟨"m1", "c", "user", "a", some [1], 1⟩, ⟨"m2", "c", "assistant", "b", none, 2⟩]⟩ :
          Store).messages.filter (fun m => m.embedding.isSome)).length) :=
  (search_ranked_c1 ⟨[⟨"c", "t", 0, 0, []⟩],
    [⟨"m1", "c", "user", "a", some [1], 1⟩, ⟨"m2", "c", "assistant", "b", none, 2⟩]⟩
    [1] 1 (by decide)).1

/-! Claim C6: corrected — the exchange sort does not keep tied results in
scan order. -/

theorem cos_e1_e2 : cosineSimilarity [1, 0] [0, 1] = 0 := by
  norm_num [cosineSimilarity, sumSquares, dotProduct]

theorem cos_e1_2e2 : cosineSimilarity [1, 0] [0, 2] = 0 := by
  norm_num [cosineSimilarity, sumSquares, dotProduct]

theorem cos_e1_e1 : cosineSimilarity [1, 0] [1, 0] = 1 := by
  norm_num [cosineSimilarity, sumSquares, dotProduct, Real.sqrt_one]

/-- Message a of the tie counterexample: similarity 0 against the query. -/
def mA : Message := ⟨"a", "c", "user", "pa", some [0, 1], 1⟩

/-- Message b of the tie counterexample: also similarity 0. -/
def mB : Message := ⟨"b", "c", "user", "pb", some [0, 2], 2⟩

/-- Message z of the tie counterexample: similarity 1, scanned last. -/
def mZ : Message := ⟨"z", "c", "user", "pz", some [1, 0], 3⟩

/-- A store scanning a, b, z in that order. -/
def tieStore : Store := ⟨[⟨"c", "t", 0, 0, []⟩], [mA, mB, mZ]⟩

/-- C6 counterexample: messages a and b tie at similarity 0 and are scanned
in the order a, b, yet Search returns them in the order b, a — the swap that
moves z to the front reverses the tied pair, so ties are not returned in
scan order. -/
theorem search_tie_cex_c6 :
    (Search tieStore [1, 0] 3).map (fun r => r.message.id) = ["z", "b", "a"] ∧
    cosineSimilarity [1, 0] [0, 1] = cosineSimilarity [1, 0] [0, 2] ∧
    tieStore.messages.map Message.id = ["a", "b", "z"] := by
  refine ⟨?_, by rw [cos_e1_e2, cos_e1_2e2], by simp [tieStore, mA, mB, mZ]⟩
  have hscan : scanResults tieStore [1, 0] =
      [⟨mA, cosineSimilarity [1, 0] [0, 1]⟩, ⟨mB, cosineSimilarity [1, 0] [0, 2]⟩,
       ⟨mZ, cosineSimilarity [1, 0] [1, 0]⟩] := by
    simp [scanResults, tieStore, scoreRow, mA, mB, mZ]
  rw [cos_e1_e2, cos_e1_2e2, cos_e1_e1] at hscan
  have hsort : sortResults [⟨mA, (0 : ℝ)⟩, ⟨mB, 0⟩, ⟨mZ, 1⟩] =
      [⟨mZ, 1⟩, ⟨mB, 0⟩, ⟨mA, 0⟩] := by
    norm_num [sortResults, sortPasses, bubblePass]
  unfold Search
  rw [hscan, hsort]
  simp [mA, mB, mZ]

/-- C6 amended: when scanned messages tie in similarity, Search still
returns a permutation of the scanned candidates sorted by descending
similarity and truncated to the limit, but tied messages may come back in
either relative order — the exchange sort is not stable, so the scan order
of exact ties is not preserved in general. -/
theorem search_sorted_perm_c6 : ∀ (s : Store) (q : List ℚ) (k : Nat),
    Search s q k = (sortResults (scanResults s q)).take k ∧
    (sortResults (scanResults s q)).Perm (scanResults s q) ∧
    List.Pairwise (fun r₁ r₂ => r₂.similarity ≤ r₁.similarity)
      (sortResults (scanResults s q)) :=
  fun _ _ _ => ⟨rfl, sortResults_perm _, sortResults_sorted _⟩

end Dvk
